import Mathlib

/-!
Verification of the predicate-pushdown optimizer
(`src/polars/src/lazy/logical_plan/optimizer/predicate.rs`).

The optimizer itself (`push_down`, `insert_and_combine_predicate`,
`combine_predicates`, `finish_at_leaf`, `finish_node`,
`split_pushdown_and_local`, the dummy expressions of
`PredicatePushDown::default`) is embedded directly from the source.
The collaborators it imports (`Expr`, `LogicalPlan`, the builder, and the
utilities `expr_to_root_column`, `has_expr`, `rename_expr_root_name`,
`check_down_node`, `count_downtree_projections`) are not part of the
repository snapshot, so they are modelled from the specification's
collaborator contracts; each such definition is marked
`Modelled from the spec`.

The source's `HashMap<Arc<String>, Expr>` accumulator is modelled as an
association list in insertion order (the map has exactly one entry per
key; iteration order of the hash map is fixed to insertion order in the
model).  Rust `panic!`/`unwrap` aborts are modelled as the `fatal`
outcome of `PResult`, distinct from the recoverable `err` outcome that
models `Err`/`?` propagation of `Result`.
-/

namespace PolarsPushdown

/-- Binary operators of the expression model. -/
inductive Operator
  | Eq
  | NotEq
  | Lt
  | LtEq
  | Gt
  | GtEq
  | Plus
  | Minus
  | And
  | Or
deriving DecidableEq, Repr

/-- Literal values appearing in expressions. -/
inductive LitVal
  | b (v : Bool)
  | i (v : Int)
  | s (v : String)
deriving DecidableEq, Repr

/-- Modelled from the spec: the immutable expression tree, with the shapes
the optimizer inspects: literal, column reference, alias, binary
expression, and the unary predicate markers is-null, is-not-null,
is-unique, is-duplicated. -/
inductive Expr
  | Literal (v : LitVal)
  | Column (name : String)
  | Alias (e : Expr) (name : String)
  | BinaryExpr (left : Expr) (op : Operator) (right : Expr)
  | IsNull (e : Expr)
  | IsNotNull (e : Expr)
  | IsUnique (e : Expr)
  | IsDuplicated (e : Expr)
deriving DecidableEq, Repr

/-- Literal construction, as `lit(...)` in the source. -/
def lit (v : LitVal) : Expr := .Literal v

/-- Conjunction of two expressions, as `Expr::and` in the source. -/
def Expr.and (l r : Expr) : Expr := .BinaryExpr l .And r

/-- Equality comparison, as `Expr::eq` in the source. -/
def Expr.eq (l r : Expr) : Expr := .BinaryExpr l .Eq r

/-- Is-null marker, as `Expr::is_null` in the source. -/
def Expr.is_null (e : Expr) : Expr := .IsNull e

/-- Is-not-null marker, as `Expr::is_not_null` in the source. -/
def Expr.is_not_null (e : Expr) : Expr := .IsNotNull e

/-- Is-unique marker, as `Expr::is_unique` in the source. -/
def Expr.is_unique (e : Expr) : Expr := .IsUnique e

/-- Is-duplicated marker, as `Expr::is_duplicated` in the source. -/
def Expr.is_duplicated (e : Expr) : Expr := .IsDuplicated e

/-- Test for the binary-expression constructor. -/
def Expr.isBinaryExpr : Expr → Bool
  | .BinaryExpr _ _ _ => true
  | _ => false

/-- Modelled from the spec: schema is an ordered column-name-to-type
mapping; the optimizer consults only column membership and names, so the
model carries the ordered list of column names. -/
abbrev Schema := List String

/-- All column occurrences an expression reads, in tree order. -/
def rootColumns : Expr → List String
  | .Literal _ => []
  | .Column n => [n]
  | .Alias e _ => rootColumns e
  | .BinaryExpr l _ r => rootColumns l ++ rootColumns r
  | .IsNull e => rootColumns e
  | .IsNotNull e => rootColumns e
  | .IsUnique e => rootColumns e
  | .IsDuplicated e => rootColumns e

/-- Modelled from the spec: `root_column(expr)` fails (with AmbiguousRoot,
here `none`) if the expression does not reduce to exactly one source
column. -/
def expr_to_root_column (e : Expr) : Option String :=
  match (rootColumns e).dedup with
  | [n] => some n
  | _ => none

/-- Replace every column reference by the given name. -/
def renameColumns : Expr → String → Expr
  | .Literal v, _ => .Literal v
  | .Column _, n => .Column n
  | .Alias e a, n => .Alias (renameColumns e n) a
  | .BinaryExpr l op r, n => .BinaryExpr (renameColumns l n) op (renameColumns r n)
  | .IsNull e, n => .IsNull (renameColumns e n)
  | .IsNotNull e, n => .IsNotNull (renameColumns e n)
  | .IsUnique e, n => .IsUnique (renameColumns e n)
  | .IsDuplicated e, n => .IsDuplicated (renameColumns e n)

/-- Modelled from the spec: `rename_root(expr, new_name)` renames the
single root column and fails if the expression has no single root. -/
def rename_expr_root_name (e : Expr) (n : String) : Option Expr :=
  match expr_to_root_column e with
  | some _ => some (renameColumns e n)
  | none => none

/-- Top-level shape equality of two expressions ("kind matching",
independent of operand values). -/
def sameKind : Expr → Expr → Bool
  | .Literal _, .Literal _ => true
  | .Column _, .Column _ => true
  | .Alias _ _, .Alias _ _ => true
  | .BinaryExpr _ _ _, .BinaryExpr _ _ _ => true
  | .IsNull _, .IsNull _ => true
  | .IsNotNull _, .IsNotNull _ => true
  | .IsUnique _, .IsUnique _ => true
  | .IsDuplicated _, .IsDuplicated _ => true
  | _, _ => false

/-- Modelled from the spec: `contains_kind(expr, kind)` — structural
containment test for a predicate shape somewhere in the tree,
independent of operand values. -/
def has_expr (e dummy : Expr) : Bool :=
  sameKind e dummy ||
    match e with
    | .Literal _ => false
    | .Column _ => false
    | .Alias inner _ => has_expr inner dummy
    | .BinaryExpr l _ r => has_expr l dummy || has_expr r dummy
    | .IsNull inner => has_expr inner dummy
    | .IsNotNull inner => has_expr inner dummy
    | .IsUnique inner => has_expr inner dummy
    | .IsDuplicated inner => has_expr inner dummy

/-- Modelled from the spec: `references_only(expr, schema)` — true iff
every column the expression reads exists in the schema
(`check_down_node` in the source's imports). -/
def check_down_node (e : Expr) (schema : Schema) : Bool :=
  (rootColumns e).all fun n => schema.contains n

/-- Modelled from the spec: the resolved column name of an expression on a
schema (`expr.to_field(schema).name()` at the Join arm): the alias name
if aliased, otherwise the first root column, with a fixed placeholder for
column-free expressions. -/
def outputName (e : Expr) : String :=
  match e with
  | .Alias _ n => n
  | e =>
    match rootColumns e with
    | n :: _ => n
    | [] => "literal"

/-- Join kinds, as `JoinType` in the source. -/
inductive JoinType
  | Left
  | Inner
  | Outer
deriving DecidableEq, Repr

/-- Operations of `DataFrameOp` nodes; their content is irrelevant to the
optimizer, which threads them through unchanged. -/
inductive DFOperation
  | mk (tag : Nat)
deriving DecidableEq, Repr

/-- Modelled from the spec: the logical plan tree with the node kinds the
optimizer handles.  `DataFrameScan` carries an identifier standing for
the in-memory data. -/
inductive LogicalPlan
  | Selection (predicate : Expr) (input : LogicalPlan)
  | Projection (expr : List Expr) (input : LogicalPlan) (schema : Schema)
  | LocalProjection (expr : List Expr) (input : LogicalPlan) (schema : Schema)
  | DataFrameScan (df : Nat) (schema : Schema)
  | CsvScan (path : String) (schema : Schema) (hasHeader : Bool) (delimiter : Char)
      (ignoreErrors : Bool) (skipRows : Nat) (stopAfterNRows : Option Nat)
      (withColumns : Option (List String))
  | DataFrameOp (input : LogicalPlan) (operation : DFOperation)
  | Distinct (input : LogicalPlan) (subset : Option (List String)) (maintainOrder : Bool)
  | Aggregate (input : LogicalPlan) (keys : List Expr) (aggs : List Expr) (schema : Schema)
  | Join (inputLeft : LogicalPlan) (inputRight : LogicalPlan) (leftOn : Expr) (rightOn : Expr)
      (how : JoinType) (schema : Schema)
  | HStack (input : LogicalPlan) (exprs : List Expr) (schema : Schema)
deriving DecidableEq, Repr

/-- Modelled from the spec: the schema attached to a plan node
(`LogicalPlan::schema()`). -/
def LogicalPlan.schema : LogicalPlan → Schema
  | .Selection _ i => i.schema
  | .Projection _ _ s => s
  | .LocalProjection _ _ s => s
  | .DataFrameScan _ s => s
  | .CsvScan _ s _ _ _ _ _ _ => s
  | .DataFrameOp i _ => i.schema
  | .Distinct i _ _ => i.schema
  | .Aggregate _ _ _ s => s
  | .Join _ _ _ _ _ s => s
  | .HStack _ _ s => s

/-- Modelled from the spec: builder `filter` — wrap a plan in a Selection. -/
def buildFilter (input : LogicalPlan) (predicate : Expr) : LogicalPlan :=
  .Selection predicate input

/-- Modelled from the spec: builder `project`, deriving the node's schema
from the projected expressions. -/
def buildProject (input : LogicalPlan) (exprs : List Expr) : LogicalPlan :=
  .Projection exprs input (exprs.map outputName)

/-- Modelled from the spec: builder `project_local`. -/
def buildProjectLocal (input : LogicalPlan) (exprs : List Expr) : LogicalPlan :=
  .LocalProjection exprs input (exprs.map outputName)

/-- Modelled from the spec: builder `join`, deriving the schema from the
two input schemas. -/
def buildJoin (l r : LogicalPlan) (how : JoinType) (leftOn rightOn : Expr) : LogicalPlan :=
  .Join l r leftOn rightOn how (l.schema ++ r.schema)

/-- Modelled from the spec: builder `with_columns`. -/
def buildWithColumns (input : LogicalPlan) (exprs : List Expr) : LogicalPlan :=
  .HStack input exprs (input.schema ++ exprs.map outputName)

/-- Modelled from the spec: `count_projections_below` — the number of
Projection nodes in a subtree. -/
def count_downtree_projections : LogicalPlan → Nat
  | .Selection _ i => count_downtree_projections i
  | .Projection _ i _ => count_downtree_projections i + 1
  | .LocalProjection _ i _ => count_downtree_projections i
  | .DataFrameScan _ _ => 0
  | .CsvScan _ _ _ _ _ _ _ _ => 0
  | .DataFrameOp i _ => count_downtree_projections i
  | .Distinct i _ _ => count_downtree_projections i
  | .Aggregate i _ _ _ => count_downtree_projections i
  | .Join l r _ _ _ _ => count_downtree_projections l + count_downtree_projections r
  | .HStack i _ _ => count_downtree_projections i

/-- The accumulator: root-column key to combined predicate, in insertion
order (`HashMap<Arc<String>, Expr, RandomState>` in the source). -/
abbrev PredMap := List (String × Expr)

/-- Lookup of a key in the accumulator. -/
def lookupPred : PredMap → String → Option Expr
  | [], _ => none
  | (k, v) :: rest, n => if k = n then some v else lookupPred rest n

/-- Source `insert_and_combine_predicate`: the entry for the key is
created as `lit(true)` when absent, and is then replaced by
`existing.and(predicate)`. -/
def insert_and_combine_predicate (m : PredMap) (name : String) (predicate : Expr) : PredMap :=
  match m with
  | [] => [(name, (lit (.b true)).and predicate)]
  | (k, v) :: rest =>
    if k = name then (k, v.and predicate) :: rest
    else (k, v) :: insert_and_combine_predicate rest name predicate

/-- Removal of a key from the accumulator (`HashMap::remove`). -/
def removePred : PredMap → String → Option Expr × PredMap
  | [], _ => (none, [])
  | (k, v) :: rest, n =>
    if k = n then (some v, rest)
    else
      let (r, m) := removePred rest n
      (r, (k, v) :: m)

/-- The abrupt-termination sites of the source: the `panic!` on an
unkeyable non-binary predicate (line 116), the two `unwrap`s of the
alias-rename path (lines 140 and 142), and the `unwrap` inside
`combine_predicates` (line 61). -/
inductive AbortSite
  | ambiguousKey
  | renameRoot
  | renameExpr
  | combineEmpty
deriving DecidableEq, Repr

/-- Outcome of a fallible optimizer step: `ok` a plan, `err` a recoverable
`Result::Err` (carrying the offending expression), or `fatal` a Rust
panic/abort. -/
inductive PResult (α : Type)
  | ok (a : α)
  | err (offending : Expr)
  | fatal (site : AbortSite)
deriving DecidableEq, Repr

/-- The folding step of `combine_predicates`' loop. -/
def combineStep (acc : Option Expr) (e : Expr) : Option Expr :=
  match acc with
  | none => some e
  | some p => some (p.and e)

/-- Source `combine_predicates`: left fold of `and` over the sequence;
the final `unwrap` aborts on an empty sequence. -/
def combine_predicates (preds : List Expr) : PResult Expr :=
  match preds.foldl combineStep none with
  | some p => .ok p
  | none => .fatal .combineEmpty

/-- Source `PredicatePushDown::default`: `unique_dummy`. -/
def unique_dummy : Expr := (lit (.s "_")).is_unique

/-- Source `PredicatePushDown::default`: `duplicated_dummy`. -/
def duplicated_dummy : Expr := (lit (.s "_")).is_duplicated

/-- Source `PredicatePushDown::default`: `binary_dummy`. -/
def binary_dummy : Expr := (lit (.s "_")).eq (lit (.s "_"))

/-- Source `PredicatePushDown::default`: `is_null_dummy`. -/
def is_null_dummy : Expr := (lit (.s "_")).is_null

/-- Source `PredicatePushDown::default`, line 45: `is_not_null_dummy` is
built with `is_null()` in the source, and the model mirrors that. -/
def is_not_null_dummy : Expr := (lit (.s "_")).is_null

/-- Source `finish_at_leaf`: wrap the plan in one filter carrying the
combined accumulator values, or return it unchanged when the accumulator
is empty. -/
def finish_at_leaf (lp : LogicalPlan) (acc : PredMap) : PResult LogicalPlan :=
  match acc with
  | [] => .ok lp
  | _ =>
    match combine_predicates (acc.map fun kv => kv.2) with
    | .ok predicate => .ok (buildFilter lp predicate)
    | .err e => .err e
    | .fatal s => .fatal s

/-- Source `finish_node`: wrap the built plan in one filter carrying the
combined local predicates when there are any. -/
def finish_node (localPredicates : List Expr) (b : LogicalPlan) : PResult LogicalPlan :=
  match localPredicates with
  | [] => .ok b
  | _ =>
    match combine_predicates localPredicates with
    | .ok predicate => .ok (buildFilter b predicate)
    | .err e => .err e
    | .fatal s => .fatal s

/-- Source Projection arm, alias loop (lines 133 to 150): for each alias
among the projected expressions whose name matches an accumulator key,
remove the entry, rename its predicate to the alias target's root column
(both `unwrap`s abort on failure), and re-insert it under the new key. -/
def renameAliases : List Expr → PredMap → PResult PredMap
  | [], acc => .ok acc
  | .Alias e name :: rest, acc =>
    match removePred acc name with
    | (some predicate, acc') =>
      match expr_to_root_column e with
      | none => .fatal .renameRoot
      | some new_name =>
        match rename_expr_root_name predicate new_name with
        | none => .fatal .renameExpr
        | some new_predicate =>
          renameAliases rest (insert_and_combine_predicate acc' new_name new_predicate)
    | (none, _) => renameAliases rest acc
  | _ :: rest, acc => renameAliases rest acc

/-- Source Distinct arm, partition loop (lines 209 to 218): predicates
containing the binary shape go to the local list, the rest stay in the
pushed accumulator. -/
def distinctSplit : PredMap → List Expr × PredMap
  | [] => ([], [])
  | kv :: rest =>
    let (loc, m) := distinctSplit rest
    if has_expr kv.2 binary_dummy then (kv.2 :: loc, m) else (loc, kv :: m)

/-- One iteration of the Join arm's loop over the accumulated predicates
(lines 263 to 305): uniqueness and duplication markers go local; the
predicate is copied into each side whose schema covers it; a predicate
not covered by both sides goes local; for Outer and Left joins a
predicate containing the is-not-null or is-null dummy shape also goes
local. -/
def joinSplitStep (how : JoinType) (sl sr : Schema)
    (st : PredMap × PredMap × List Expr) (predicate : Expr) :
    PredMap × PredMap × List Expr :=
  let (pdl, pdr, loc) := st
  if has_expr predicate unique_dummy then (pdl, pdr, loc ++ [predicate])
  else if has_expr predicate duplicated_dummy then (pdl, pdr, loc ++ [predicate])
  else
    let fl := check_down_node predicate sl
    let fr := check_down_node predicate sr
    let pdl' := if fl then insert_and_combine_predicate pdl (outputName predicate) predicate else pdl
    let pdr' := if fr then insert_and_combine_predicate pdr (outputName predicate) predicate else pdr
    if !(fl && fr) then (pdl', pdr', loc ++ [predicate])
    else if (how = .Outer || how = .Left) && has_expr predicate is_not_null_dummy then
      (pdl', pdr', loc ++ [predicate])
    else if (how = .Outer || how = .Left) && has_expr predicate is_null_dummy then
      (pdl', pdr', loc ++ [predicate])
    else (pdl', pdr', loc)

/-- The Join arm's full loop: fold over the accumulator. -/
def joinSplit (how : JoinType) (sl sr : Schema) (acc : PredMap) :
    PredMap × PredMap × List Expr :=
  acc.foldl (fun st kv => joinSplitStep how sl sr st kv.2) ([], [], [])

/-- Source `split_pushdown_and_local`: predicates not covered by the given
schema are pulled out as local, the rest stay in the accumulator. -/
def split_pushdown_and_local (acc : PredMap) (schema : Schema) :
    List Expr × PredMap :=
  ((acc.filter fun kv => !check_down_node kv.2 schema).map (fun kv => kv.2),
   acc.filter fun kv => check_down_node kv.2 schema)

/-- Source `PredicatePushDown::push_down`, arm for arm. -/
def push_down : LogicalPlan → PredMap → PResult LogicalPlan
  | .Selection predicate input, acc =>
    match expr_to_root_column predicate with
    | some name => push_down input (insert_and_combine_predicate acc name predicate)
    | none =>
      match predicate with
      | .BinaryExpr left op right =>
        match expr_to_root_column left with
        | none => .err left
        | some left_name =>
          match expr_to_root_column right with
          | none => .err right
          | some right_name =>
            push_down input (insert_and_combine_predicate acc
              (left_name ++ "-binary-" ++ right_name) (.BinaryExpr left op right))
      | _ => .fatal .ambiguousKey
  | .Projection exprs input _, acc =>
    if count_downtree_projections input = 0 then
      match push_down input [] with
      | .ok i => finish_node (acc.map fun kv => kv.2) (buildProject i exprs)
      | .err e => .err e
      | .fatal s => .fatal s
    else
      match renameAliases exprs acc with
      | .ok acc' =>
        match push_down input acc' with
        | .ok i => .ok (buildProject i exprs)
        | .err e => .err e
        | .fatal s => .fatal s
      | .err e => .err e
      | .fatal s => .fatal s
  | .LocalProjection exprs input _, acc =>
    match push_down input acc with
    | .ok i =>
      .ok (buildProjectLocal i (exprs.filter fun e => check_down_node e i.schema))
    | .err e => .err e
    | .fatal s => .fatal s
  | .DataFrameScan df schema, acc => finish_at_leaf (.DataFrameScan df schema) acc
  | .CsvScan path schema hasHeader delimiter ignoreErrors skipRows stopAfterNRows
      withColumns, acc =>
    finish_at_leaf
      (.CsvScan path schema hasHeader delimiter ignoreErrors skipRows stopAfterNRows
        withColumns) acc
  | .DataFrameOp input operation, acc =>
    match push_down input acc with
    | .ok i => .ok (.DataFrameOp i operation)
    | .err e => .err e
    | .fatal s => .fatal s
  | .Distinct input subset maintainOrder, acc =>
    let sp := distinctSplit acc
    match push_down input sp.2 with
    | .ok i =>
      match sp.1 with
      | [] => .ok (.Distinct i subset maintainOrder)
      | _ =>
        match combine_predicates sp.1 with
        | .ok predicate => .ok (buildFilter (.Distinct i subset maintainOrder) predicate)
        | .err e => .err e
        | .fatal s => .fatal s
    | .err e => .err e
    | .fatal s => .fatal s
  | .Aggregate input keys aggs schema, acc =>
    match push_down input [] with
    | .ok i => finish_at_leaf (.Aggregate i keys aggs schema) acc
    | .err e => .err e
    | .fatal s => .fatal s
  | .Join inputLeft inputRight leftOn rightOn how _, acc =>
    let sp := joinSplit how inputLeft.schema inputRight.schema acc
    match push_down inputLeft sp.1 with
    | .ok l =>
      match push_down inputRight sp.2.1 with
      | .ok r => finish_node sp.2.2 (buildJoin l r how leftOn rightOn)
      | .err e => .err e
      | .fatal s => .fatal s
    | .err e => .err e
    | .fatal s => .fatal s
  | .HStack input exprs _, acc =>
    let sp := split_pushdown_and_local acc input.schema
    match push_down input sp.2 with
    | .ok i =>
      match sp.1 with
      | [] => .ok (buildWithColumns i exprs)
      | _ =>
        match combine_predicates sp.1 with
        | .ok predicate => .ok (buildFilter (buildWithColumns i exprs) predicate)
        | .err e => .err e
        | .fatal s => .fatal s
    | .err e => .err e
    | .fatal s => .fatal s

/-- Source `Optimize::optimize` for `PredicatePushDown`: run `push_down`
with an empty accumulator. -/
def optimize (lp : LogicalPlan) : PResult LogicalPlan := push_down lp []

/-- The leaf nodes (data sources) of a plan, in tree order, with their
full contents. -/
def leaves : LogicalPlan → List LogicalPlan
  | .Selection _ i => leaves i
  | .Projection _ i _ => leaves i
  | .LocalProjection _ i _ => leaves i
  | .DataFrameScan df s => [.DataFrameScan df s]
  | .CsvScan p s h d ie sr st wc => [.CsvScan p s h d ie sr st wc]
  | .DataFrameOp i _ => leaves i
  | .Distinct i _ _ => leaves i
  | .Aggregate i _ _ _ => leaves i
  | .Join l r _ _ _ _ => leaves l ++ leaves r
  | .HStack i _ _ => leaves i

/-- Whether a plan contains a Selection (filter) node anywhere. -/
def containsSelection : LogicalPlan → Bool
  | .Selection _ _ => true
  | .Projection _ i _ => containsSelection i
  | .LocalProjection _ i _ => containsSelection i
  | .DataFrameScan _ _ => false
  | .CsvScan _ _ _ _ _ _ _ _ => false
  | .DataFrameOp i _ => containsSelection i
  | .Distinct i _ _ => containsSelection i
  | .Aggregate i _ _ _ => containsSelection i
  | .Join l r _ _ _ _ => containsSelection l || containsSelection r
  | .HStack i _ _ => containsSelection i

/-- Whether the top of a plan is a filter directly above a Join node. -/
def isFilterAboveJoin : LogicalPlan → Bool
  | .Selection _ (.Join _ _ _ _ _ _) => true
  | _ => false

/-- Whether an optimizer outcome is the abort of `combine_predicates`'
`unwrap` on an empty sequence. -/
def isCombineEmptyAbort : PResult LogicalPlan → Bool
  | .fatal .combineEmpty => true
  | _ => false

/-- A one-column in-memory source over column `a`. -/
def scanA : LogicalPlan := .DataFrameScan 0 ["a"]

/-- A one-column in-memory source over column `b`. -/
def scanB : LogicalPlan := .DataFrameScan 1 ["b"]

/-- A CSV source over column `b`. -/
def csvB : LogicalPlan := .CsvScan "data.csv" ["b"] true ',' false 0 none none

/-- The is-not-null predicate on the right-originating column `b`. -/
def c1Pred : Expr := (Expr.Column "b").is_not_null

/-- The accumulated form of `c1Pred` after extraction from its Selection. -/
def c1AccPred : Expr := (lit (.b true)).and c1Pred

/-- A Left join with an is-not-null filter on a right-only column. -/
def c1Plan : LogicalPlan :=
  .Selection c1Pred (.Join scanA scanB (.Column "a") (.Column "b") .Left ["a", "b"])

/-- The right subtree produced by the optimizer for `c1Plan`: the scan of
`b` wrapped in a filter derived from the pushed-down predicate. -/
def c1RightSubtree : LogicalPlan := .Selection ((lit (.b true)).and c1AccPred) scanB

/-- The plan the optimizer returns for `c1Plan`. -/
def c1Out : LogicalPlan :=
  .Selection c1AccPred (.Join scanA c1RightSubtree (.Column "a") (.Column "b") .Left ["a", "b"])

/-- A comparison predicate on the left-only column `a`. -/
def c2Pred : Expr := .BinaryExpr (.Column "a") .Lt (lit (.i 1))

/-- The accumulated form of `c2Pred` after extraction from its Selection. -/
def c2AccPred : Expr := (lit (.b true)).and c2Pred

/-- An Inner join with a filter on a left-only column. -/
def c2Plan : LogicalPlan :=
  .Selection c2Pred (.Join scanA scanB (.Column "a") (.Column "b") .Inner ["a", "b"])

/-- The plan the optimizer returns for `c2Plan`: the predicate is pushed
into the left subtree and a copy also sits directly above the Join. -/
def c2Out : LogicalPlan :=
  .Selection c2AccPred
    (.Join (.Selection ((lit (.b true)).and c2AccPred) scanA) scanB (.Column "a") (.Column "b")
      .Inner ["a", "b"])

/-- A Selection whose predicate has no root column and is not a binary
expression. -/
def c3Plan : LogicalPlan := .Selection (.IsNull (lit (.b true))) scanA

/-- A stacked projection where the alias `x` matches the accumulated
predicate's key but aliases a literal with no root column. -/
def c4Plan : LogicalPlan :=
  .Selection (.IsNull (.Column "x"))
    (.Projection [.Alias (lit (.i 3)) "x"] (.Projection [.Column "a"] scanA ["a"]) ["x"])

/-- The outer predicate of the merge example, keyed by column `a`. -/
def predA : Expr := .BinaryExpr (.Column "a") .Gt (lit (.i 0))

/-- The inner predicate of the merge example, keyed by column `a`. -/
def predB : Expr := .BinaryExpr (.Column "a") .Lt (lit (.i 10))

/-- Two stacked Selections keyed to the same column over one source. -/
def c5Plan : LogicalPlan := .Selection predA (.Selection predB scanA)

/-- A single filter over a single source. -/
def c6Plan : LogicalPlan := .Selection predA scanA

/-- The result of one optimizer pass over `c6Plan`. -/
def c6Once : LogicalPlan := .Selection ((lit (.b true)).and predA) scanA

/-- The result of a second optimizer pass over `c6Once`. -/
def c6Twice : LogicalPlan := .Selection ((lit (.b true)).and ((lit (.b true)).and predA)) scanA

/-- An accumulated predicate used at the Aggregate witness. -/
def c7Pred : Expr := .IsNotNull (.Column "a")

/-- A cross-column equality predicate, containing the binary shape. -/
def c8Bin : Expr := (Expr.Column "a").eq (Expr.Column "b")

/-- A null-test predicate, free of the binary shape. -/
def c8Null : Expr := .IsNull (.Column "a")

/-- A filter over the CSV source, for the leaf-preservation witness. -/
def c10Plan : LogicalPlan := .Selection (.IsNotNull (.Column "b")) csvB

/-- The optimizer's output for `c10Plan`. -/
def c10Out : LogicalPlan := .Selection ((lit (.b true)).and (.IsNotNull (.Column "b"))) csvB

/-- The accumulated predicate keyed `x` at the rename-failure witness. -/
def c4AccPred : Expr := (lit (.b true)).and (.IsNull (.Column "x"))

theorem foldl_combineStep_some (ps : List Expr) :
    ∀ a : Expr, ps.foldl combineStep (some a) = some (ps.foldl Expr.and a) := by
  induction ps with
  | nil => intro a; rfl
  | cons p ps ih =>
    intro a
    simp only [List.foldl_cons, combineStep]
    exact ih (a.and p)

theorem combine_predicates_cons (p : Expr) (ps : List Expr) :
    combine_predicates (p :: ps) = .ok (ps.foldl Expr.and p) := by
  simp [combine_predicates, List.foldl_cons, combineStep, foldl_combineStep_some]

theorem finish_at_leaf_eq (lp : LogicalPlan) (acc : PredMap) :
    finish_at_leaf lp acc =
      match acc.map (fun kv => kv.2) with
      | [] => .ok lp
      | p :: ps => .ok (buildFilter lp (ps.foldl Expr.and p)) := by
  cases acc with
  | nil => rfl
  | cons kv rest => simp [finish_at_leaf, combine_predicates_cons]

theorem finish_node_eq (l : List Expr) (b : LogicalPlan) :
    finish_node l b =
      match l with
      | [] => .ok b
      | p :: ps => .ok (buildFilter b (ps.foldl Expr.and p)) := by
  cases l with
  | nil => rfl
  | cons p ps => simp [finish_node, combine_predicates_cons]

theorem finish_at_leaf_ne_combineEmpty (lp : LogicalPlan) (acc : PredMap) :
    finish_at_leaf lp acc ≠ .fatal .combineEmpty := by
  rw [finish_at_leaf_eq]
  cases acc.map (fun kv => kv.2) <;> simp

theorem finish_node_ne_combineEmpty (l : List Expr) (b : LogicalPlan) :
    finish_node l b ≠ .fatal .combineEmpty := by
  rw [finish_node_eq]
  cases l <;> simp

theorem renameAliases_ne_combineEmpty (es : List Expr) :
    ∀ acc : PredMap, renameAliases es acc ≠ .fatal .combineEmpty := by
  induction es with
  | nil => intro acc; simp [renameAliases]
  | cons e rest ih =>
    intro acc
    cases e with
    | Alias inner nm =>
      cases hrp : removePred acc nm with
      | mk r acc' =>
        cases r with
        | none =>
          simp only [renameAliases, hrp]
          exact ih acc
        | some predicate =>
          simp only [renameAliases, hrp]
          cases hroot : expr_to_root_column inner with
          | none => simp [hroot]
          | some nn =>
            simp only [hroot]
            cases hren : rename_expr_root_name predicate nn with
            | none => simp [hren]
            | some np =>
              simp only [hren]
              exact ih _
    | Literal v => exact ih acc
    | Column n => exact ih acc
    | BinaryExpr l op r => exact ih acc
    | IsNull i => exact ih acc
    | IsNotNull i => exact ih acc
    | IsUnique i => exact ih acc
    | IsDuplicated i => exact ih acc

theorem push_down_ne_combineEmpty (lp : LogicalPlan) :
    ∀ acc : PredMap, push_down lp acc ≠ .fatal .combineEmpty := by
  induction lp with
  | Selection predicate input ih =>
    intro acc
    cases h : expr_to_root_column predicate with
    | some name =>
      simp only [push_down, h]
      exact ih _
    | none =>
      cases predicate with
      | BinaryExpr l op r =>
        cases hl : expr_to_root_column l with
        | none => simp [push_down, h, hl]
        | some ln =>
          cases hr : expr_to_root_column r with
          | none => simp [push_down, h, hl, hr]
          | some rn =>
            simp only [push_down, h, hl, hr]
            exact ih _
      | Literal v => simp [push_down, h]
      | Column n => simp [push_down, h]
      | Alias e nm => simp [push_down, h]
      | IsNull e => simp [push_down, h]
      | IsNotNull e => simp [push_down, h]
      | IsUnique e => simp [push_down, h]
      | IsDuplicated e => simp [push_down, h]
  | Projection exprs input schema ih =>
    intro acc
    simp only [push_down]
    by_cases hc : count_downtree_projections input = 0
    · rw [if_pos hc]
      cases hp : push_down input [] with
      | ok i =>
        simp only [hp]
        exact finish_node_ne_combineEmpty _ _
      | err e => simp [hp]
      | fatal s =>
        simp only [hp]
        intro hEq
        injection hEq with h2
        exact ih [] (h2 ▸ hp)
    · rw [if_neg hc]
      cases hr : renameAliases exprs acc with
      | ok acc' =>
        simp only [hr]
        cases hp : push_down input acc' with
        | ok i => simp [hp]
        | err e => simp [hp]
        | fatal s =>
          simp only [hp]
          intro hEq
          injection hEq with h2
          exact ih acc' (h2 ▸ hp)
      | err e => simp [hr]
      | fatal s =>
        simp only [hr]
        intro hEq
        injection hEq with h2
        exact renameAliases_ne_combineEmpty exprs acc (h2 ▸ hr)
  | LocalProjection exprs input schema ih =>
    intro acc
    simp only [push_down]
    cases hp : push_down input acc with
    | ok i => simp [hp]
    | err e => simp [hp]
    | fatal s =>
      simp only [hp]
      intro hEq
      injection hEq with h2
      exact ih acc (h2 ▸ hp)
  | DataFrameScan df schema =>
    intro acc
    exact finish_at_leaf_ne_combineEmpty _ _
  | CsvScan p s h d ie sr st wc =>
    intro acc
    exact finish_at_leaf_ne_combineEmpty _ _
  | DataFrameOp input operation ih =>
    intro acc
    simp only [push_down]
    cases hp : push_down input acc with
    | ok i => simp [hp]
    | err e => simp [hp]
    | fatal s =>
      simp only [hp]
      intro hEq
      injection hEq with h2
      exact ih acc (h2 ▸ hp)
  | Distinct input subset maintainOrder ih =>
    intro acc
    simp only [push_down]
    cases hp : push_down input (distinctSplit acc).2 with
    | ok i =>
      simp only [hp]
      cases hloc : (distinctSplit acc).1 with
      | nil => simp
      | cons p ps => simp [combine_predicates_cons]
    | err e => simp [hp]
    | fatal s =>
      simp only [hp]
      intro hEq
      injection hEq with h2
      exact ih _ (h2 ▸ hp)
  | Aggregate input keys aggs schema ih =>
    intro acc
    simp only [push_down]
    cases hp : push_down input [] with
    | ok i =>
      simp only [hp]
      exact finish_at_leaf_ne_combineEmpty _ _
    | err e => simp [hp]
    | fatal s =>
      simp only [hp]
      intro hEq
      injection hEq with h2
      exact ih [] (h2 ▸ hp)
  | Join inputLeft inputRight leftOn rightOn how schema ihL ihR =>
    intro acc
    simp only [push_down]
    cases hp : push_down inputLeft (joinSplit how inputLeft.schema inputRight.schema acc).1 with
    | ok l =>
      simp only [hp]
      cases hq : push_down inputRight
          (joinSplit how inputLeft.schema inputRight.schema acc).2.1 with
      | ok r =>
        simp only [hq]
        exact finish_node_ne_combineEmpty _ _
      | err e => simp [hq]
      | fatal s =>
        simp only [hq]
        intro hEq
        injection hEq with h2
        exact ihR _ (h2 ▸ hq)
    | err e => simp [hp]
    | fatal s =>
      simp only [hp]
      intro hEq
      injection hEq with h2
      exact ihL _ (h2 ▸ hp)
  | HStack input exprs schema ih =>
    intro acc
    simp only [push_down]
    cases hp : push_down input (split_pushdown_and_local acc input.schema).2 with
    | ok i =>
      simp only [hp]
      cases hloc : (split_pushdown_and_local acc input.schema).1 with
      | nil => simp
      | cons p ps => simp [combine_predicates_cons]
    | err e => simp [hp]
    | fatal s =>
      simp only [hp]
      intro hEq
      injection hEq with h2
      exact ih _ (h2 ▸ hp)

/-- Claim C9: `combine_predicates` is total on non-empty sequences and
returns the left-associated AND-fold of the sequence, and the abort of
its `unwrap` on an empty sequence is unreachable from every call site
within the optimizer: no run of `push_down` ever ends in that abort,
because each caller only invokes it on a non-empty collection. -/
theorem combine_predicates_total_and_unwrap_unreachable :
    (∀ (p : Expr) (ps : List Expr),
        combine_predicates (p :: ps) = .ok (ps.foldl Expr.and p)) ∧
    (∀ (lp : LogicalPlan) (acc : PredMap),
        isCombineEmptyAbort (push_down lp acc) = false) := by
  refine ⟨combine_predicates_cons, fun lp acc => ?_⟩
  cases hp : push_down lp acc with
  | ok a => rfl
  | err e => rfl
  | fatal s =>
    cases s with
    | combineEmpty => exact absurd hp (push_down_ne_combineEmpty lp acc)
    | ambiguousKey => rfl
    | renameRoot => rfl
    | renameExpr => rfl

theorem finish_at_leaf_ok_leaves (lp : LogicalPlan) (acc : PredMap) (out : LogicalPlan)
    (h : finish_at_leaf lp acc = .ok out) : leaves out = leaves lp := by
  rw [finish_at_leaf_eq] at h
  cases hm : acc.map (fun kv => kv.2) with
  | nil =>
    rw [hm] at h
    injection h with h2
    rw [← h2]
  | cons p ps =>
    rw [hm] at h
    injection h with h2
    rw [← h2]
    rfl

theorem finish_node_ok_leaves (l : List Expr) (b : LogicalPlan) (out : LogicalPlan)
    (h : finish_node l b = .ok out) : leaves out = leaves b := by
  rw [finish_node_eq] at h
  cases l with
  | nil =>
    injection h with h2
    rw [← h2]
  | cons p ps =>
    injection h with h2
    rw [← h2]
    rfl

/-- Claim C10: on every successful rewrite, the leaves of the output plan
are, in order and field for field, the leaves of the input plan: the
optimizer only ever wraps leaves with filters, never alters them. -/
theorem push_down_preserves_leaves (lp : LogicalPlan) :
    ∀ (acc : PredMap) (out : LogicalPlan),
      push_down lp acc = .ok out → leaves out = leaves lp := by
  induction lp with
  | Selection predicate input ih =>
    intro acc out h
    cases hroot : expr_to_root_column predicate with
    | some name =>
      simp only [push_down, hroot] at h
      exact ih _ out h
    | none =>
      cases predicate with
      | BinaryExpr l op r =>
        cases hl : expr_to_root_column l with
        | none => simp [push_down, hroot, hl] at h
        | some ln =>
          cases hr : expr_to_root_column r with
          | none => simp [push_down, hroot, hl, hr] at h
          | some rn =>
            simp only [push_down, hroot, hl, hr] at h
            exact ih _ out h
      | Literal v => simp [push_down, hroot] at h
      | Column n => simp [push_down, hroot] at h
      | Alias e nm => simp [push_down, hroot] at h
      | IsNull e => simp [push_down, hroot] at h
      | IsNotNull e => simp [push_down, hroot] at h
      | IsUnique e => simp [push_down, hroot] at h
      | IsDuplicated e => simp [push_down, hroot] at h
  | Projection exprs input schema ih =>
    intro acc out h
    simp only [push_down] at h
    by_cases hc : count_downtree_projections input = 0
    · rw [if_pos hc] at h
      cases hp : push_down input [] with
      | ok i =>
        simp only [hp] at h
        have h1 := finish_node_ok_leaves _ _ _ h
        rw [h1]
        exact ih [] i hp
      | err e => simp [hp] at h
      | fatal s => simp [hp] at h
    · rw [if_neg hc] at h
      cases hr : renameAliases exprs acc with
      | ok acc' =>
        simp only [hr] at h
        cases hp : push_down input acc' with
        | ok i =>
          simp only [hp] at h
          injection h with h2
          rw [← h2]
          exact ih acc' i hp
        | err e => simp [hp] at h
        | fatal s => simp [hp] at h
      | err e => simp [hr] at h
      | fatal s => simp [hr] at h
  | LocalProjection exprs input schema ih =>
    intro acc out h
    simp only [push_down] at h
    cases hp : push_down input acc with
    | ok i =>
      simp only [hp] at h
      injection h with h2
      rw [← h2]
      exact ih acc i hp
    | err e => simp [hp] at h
    | fatal s => simp [hp] at h
  | DataFrameScan df schema =>
    intro acc out h
    simp only [push_down] at h
    exact finish_at_leaf_ok_leaves _ _ _ h
  | CsvScan p s hh d ie sr st wc =>
    intro acc out h
    simp only [push_down] at h
    exact finish_at_leaf_ok_leaves _ _ _ h
  | DataFrameOp input operation ih =>
    intro acc out h
    simp only [push_down] at h
    cases hp : push_down input acc with
    | ok i =>
      simp only [hp] at h
      injection h with h2
      rw [← h2]
      exact ih acc i hp
    | err e => simp [hp] at h
    | fatal s => simp [hp] at h
  | Distinct input subset maintainOrder ih =>
    intro acc out h
    simp only [push_down] at h
    cases hp : push_down input (distinctSplit acc).2 with
    | ok i =>
      simp only [hp] at h
      cases hloc : (distinctSplit acc).1 with
      | nil =>
        simp only [hloc] at h
        injection h with h2
        rw [← h2]
        exact ih _ i hp
      | cons p ps =>
        simp only [hloc, combine_predicates_cons] at h
        injection h with h2
        rw [← h2]
        exact ih _ i hp
    | err e => simp [hp] at h
    | fatal s => simp [hp] at h
  | Aggregate input keys aggs schema ih =>
    intro acc out h
    simp only [push_down] at h
    cases hp : push_down input [] with
    | ok i =>
      simp only [hp] at h
      have h1 := finish_at_leaf_ok_leaves _ _ _ h
      rw [h1]
      exact ih [] i hp
    | err e => simp [hp] at h
    | fatal s => simp [hp] at h
  | Join inputLeft inputRight leftOn rightOn how schema ihL ihR =>
    intro acc out h
    simp only [push_down] at h
    cases hp : push_down inputLeft (joinSplit how inputLeft.schema inputRight.schema acc).1 with
    | ok l =>
      simp only [hp] at h
      cases hq : push_down inputRight
          (joinSplit how inputLeft.schema inputRight.schema acc).2.1 with
      | ok r =>
        simp only [hq] at h
        have h1 := finish_node_ok_leaves _ _ _ h
        rw [h1]
        show leaves l ++ leaves r = leaves inputLeft ++ leaves inputRight
        rw [ihL _ l hp, ihR _ r hq]
      | err e => simp [hq] at h
      | fatal s => simp [hq] at h
    | err e => simp [hp] at h
    | fatal s => simp [hp] at h
  | HStack input exprs schema ih =>
    intro acc out h
    simp only [push_down] at h
    cases hp : push_down input (split_pushdown_and_local acc input.schema).2 with
    | ok i =>
      simp only [hp] at h
      cases hloc : (split_pushdown_and_local acc input.schema).1 with
      | nil =>
        simp only [hloc] at h
        injection h with h2
        rw [← h2]
        exact ih _ i hp
      | cons p ps =>
        simp only [hloc, combine_predicates_cons] at h
        injection h with h2
        rw [← h2]
        exact ih _ i hp
    | err e => simp [hp] at h
    | fatal s => simp [hp] at h

/-- Witness for C10 at a concrete CSV-scan plan. -/
theorem push_down_preserves_leaves_witness : leaves c10Out = leaves c10Plan :=
  push_down_preserves_leaves c10Plan [] c10Out (by decide)

/-- Claim C7: at an Aggregate node the optimizer recurses into the input
with a fresh empty accumulator; the rebuilt Aggregate gets exactly one
filter, carrying the AND-fold of all accumulated predicates, directly
above it when the accumulator is non-empty, and no filter when it is
empty. -/
theorem aggregate_boundary (input : LogicalPlan) (keys aggs : List Expr) (schema : Schema)
    (acc : PredMap) (i : LogicalPlan) (h : push_down input [] = .ok i) :
    push_down (.Aggregate input keys aggs schema) acc =
      match acc.map (fun kv => kv.2) with
      | [] => .ok (.Aggregate i keys aggs schema)
      | p :: ps => .ok (.Selection (ps.foldl Expr.and p) (.Aggregate i keys aggs schema)) := by
  simp only [push_down, h, finish_at_leaf_eq]
  cases acc.map (fun kv => kv.2) with
  | nil => rfl
  | cons p ps => rfl

/-- Witness for C7 at a concrete aggregate over the scan of column `a`. -/
theorem aggregate_boundary_witness :
    push_down (.Aggregate scanA [] [] ["a"]) [("a", c7Pred)] =
      .ok (.Selection c7Pred (.Aggregate scanA [] [] ["a"])) :=
  aggregate_boundary scanA [] [] ["a"] [("a", c7Pred)] scanA (by decide)

theorem distinctSplit_eq (acc : PredMap) :
    distinctSplit acc =
      ((acc.filter fun kv => has_expr kv.2 binary_dummy).map (fun kv => kv.2),
       acc.filter fun kv => !has_expr kv.2 binary_dummy) := by
  induction acc with
  | nil => rfl
  | cons kv rest ih =>
    by_cases hb : has_expr kv.2 binary_dummy <;>
      simp [distinctSplit, ih, List.filter_cons, hb]

/-- Claim C8: at a Distinct node the accumulator is partitioned so that
exactly the predicates containing the binary shape stay local, emitted as
one filter above the rebuilt Distinct when non-empty, while all other
predicates are pushed into the input with the recursion. -/
theorem distinct_partition (input : LogicalPlan) (subset : Option (List String)) (mo : Bool)
    (acc : PredMap) (i : LogicalPlan)
    (h : push_down input (acc.filter fun kv => !has_expr kv.2 binary_dummy) = .ok i) :
    push_down (.Distinct input subset mo) acc =
      match (acc.filter fun kv => has_expr kv.2 binary_dummy).map (fun kv => kv.2) with
      | [] => .ok (.Distinct i subset mo)
      | p :: ps => .ok (.Selection (ps.foldl Expr.and p) (.Distinct i subset mo)) := by
  simp only [push_down, distinctSplit_eq, h]
  cases (acc.filter fun kv => has_expr kv.2 binary_dummy).map (fun kv => kv.2) with
  | nil => rfl
  | cons p ps => simp [combine_predicates_cons, buildFilter]

/-- Witness for C8: the cross-column equality stays above Distinct while
the null test is pushed to the scan. -/
theorem distinct_partition_witness :
    push_down (.Distinct scanA none true) [("a-binary-b", c8Bin), ("a", c8Null)] =
      .ok (.Selection c8Bin (.Distinct (.Selection c8Null scanA) none true)) :=
  distinct_partition scanA none true [("a-binary-b", c8Bin), ("a", c8Null)]
    (.Selection c8Null scanA) (by decide)

/-- Counterexample for C1: on a Left join with an is-not-null predicate
over the right-only column `b`, the rewritten plan does keep a filter
directly above the Join, but the predicate is also inserted into the
accumulator pushed into the right subtree, which therefore contains a
Selection as well. -/
theorem c1_refuted :
    optimize c1Plan = .ok c1Out ∧ containsSelection c1RightSubtree = true :=
  ⟨by decide, by decide⟩

/-- Claim C1 (amended): for a Left join whose accumulator holds a
predicate that resolves only on the right schema (and contains no
uniqueness or duplication marker), the predicate is kept as a filter
directly above the rebuilt Join, and a copy is also inserted into the
accumulator pushed into the right subtree, keyed by its resolved column
name: the Join arm copies a predicate into each side whose schema covers
it before deciding locality. -/
theorem join_left_right_only_also_pushed (p : Expr) (k : String) (il ir : LogicalPlan)
    (lo ro : Expr) (s : Schema) (l r : LogicalPlan)
    (hu : has_expr p unique_dummy = false)
    (hd : has_expr p duplicated_dummy = false)
    (hl : check_down_node p il.schema = false)
    (hr : check_down_node p ir.schema = true)
    (hpl : push_down il [] = .ok l)
    (hpr : push_down ir [(outputName p, (lit (.b true)).and p)] = .ok r) :
    push_down (.Join il ir lo ro .Left s) [(k, p)] =
      .ok (.Selection p (.Join l r lo ro .Left (l.schema ++ r.schema))) := by
  have hstep : joinSplit .Left il.schema ir.schema [(k, p)] =
      ([], [(outputName p, (lit (.b true)).and p)], [p]) := by
    simp [joinSplit, joinSplitStep, hu, hd, hl, hr, insert_and_combine_predicate]
  simp [push_down, hstep, hpl, hpr, finish_node_eq, buildFilter, buildJoin]

/-- Witness for the amended C1 at the concrete Left-join plan. -/
theorem join_left_right_only_also_pushed_witness :
    push_down (.Join scanA scanB (.Column "a") (.Column "b") .Left ["a", "b"])
        [("b", c1AccPred)] =
      .ok (.Selection c1AccPred
        (.Join scanA c1RightSubtree (.Column "a") (.Column "b") .Left ["a", "b"])) :=
  join_left_right_only_also_pushed c1AccPred "b" scanA scanB (.Column "a") (.Column "b")
    ["a", "b"] scanA c1RightSubtree (by decide) (by decide) (by decide) (by decide)
    (by decide) (by decide)

/-- Counterexample for C2: on an Inner join with a predicate over the
left-only column `a`, the rewritten plan pushes the predicate into the
left subtree, but a filter also sits directly above the Join. -/
theorem c2_refuted :
    optimize c2Plan = .ok c2Out ∧ isFilterAboveJoin c2Out = true :=
  ⟨by decide, by decide⟩

/-- Claim C2 (amended): for an Inner join whose accumulator holds a
predicate that resolves only on the left schema (and contains no
uniqueness or duplication marker), the predicate is pushed into the left
subtree, and a copy is also emitted as a filter directly above the
rebuilt Join, because a predicate that does not resolve on both sides is
additionally kept local. -/
theorem join_inner_left_only_also_local (p : Expr) (k : String) (il ir : LogicalPlan)
    (lo ro : Expr) (s : Schema) (l r : LogicalPlan)
    (hu : has_expr p unique_dummy = false)
    (hd : has_expr p duplicated_dummy = false)
    (hl : check_down_node p il.schema = true)
    (hr : check_down_node p ir.schema = false)
    (hpl : push_down il [(outputName p, (lit (.b true)).and p)] = .ok l)
    (hpr : push_down ir [] = .ok r) :
    push_down (.Join il ir lo ro .Inner s) [(k, p)] =
      .ok (.Selection p (.Join l r lo ro .Inner (l.schema ++ r.schema))) := by
  have hstep : joinSplit .Inner il.schema ir.schema [(k, p)] =
      ([(outputName p, (lit (.b true)).and p)], [], [p]) := by
    simp [joinSplit, joinSplitStep, hu, hd, hl, hr, insert_and_combine_predicate]
  simp [push_down, hstep, hpl, hpr, finish_node_eq, buildFilter, buildJoin]

/-- Witness for the amended C2 at the concrete Inner-join plan. -/
theorem join_inner_left_only_also_local_witness :
    push_down (.Join scanA scanB (.Column "a") (.Column "b") .Inner ["a", "b"])
        [("a", c2AccPred)] =
      .ok (.Selection c2AccPred
        (.Join (.Selection ((lit (.b true)).and c2AccPred) scanA) scanB (.Column "a")
          (.Column "b") .Inner ["a", "b"])) :=
  join_inner_left_only_also_local c2AccPred "a" scanA scanB (.Column "a") (.Column "b")
    ["a", "b"] (.Selection ((lit (.b true)).and c2AccPred) scanA) scanB (by decide) (by decide)
    (by decide) (by decide) (by decide) (by decide)

/-- Counterexample for C3: on a Selection whose predicate has no root
column and is not a binary expression, the optimizer aborts (the
source's `panic!`) instead of returning a recoverable error. -/
theorem c3_refuted : optimize c3Plan = .fatal .ambiguousKey := by decide

/-- Claim C3 (amended): for a Selection predicate that derives no
accumulator key, the behavior splits: if the predicate is not a binary
expression the optimizer aborts the process (`panic!`), and only when it
is a binary expression with an unresolvable side does it return a
recoverable error identifying the offending side, with no partial plan. -/
theorem selection_unkeyable (pred : Expr) (input : LogicalPlan) (acc : PredMap)
    (h : expr_to_root_column pred = none) :
    (pred.isBinaryExpr = false →
      push_down (.Selection pred input) acc = .fatal .ambiguousKey) ∧
    (∀ l op r, pred = .BinaryExpr l op r → expr_to_root_column l = none →
      push_down (.Selection pred input) acc = .err l) ∧
    (∀ l op r ln, pred = .BinaryExpr l op r → expr_to_root_column l = some ln →
      expr_to_root_column r = none →
      push_down (.Selection pred input) acc = .err r) := by
  refine ⟨?_, ?_, ?_⟩
  · intro hb
    cases pred with
    | BinaryExpr l op r => simp [Expr.isBinaryExpr] at hb
    | Literal v => simp [push_down, h]
    | Column n => simp [push_down, h]
    | Alias e nm => simp [push_down, h]
    | IsNull e => simp [push_down, h]
    | IsNotNull e => simp [push_down, h]
    | IsUnique e => simp [push_down, h]
    | IsDuplicated e => simp [push_down, h]
  · intro l op r hEq hl
    subst hEq
    simp [push_down, h, hl]
  · intro l op r ln hEq hl hr
    subst hEq
    simp [push_down, h, hl, hr]

/-- Witness for the amended C3 at a concrete non-binary unkeyable
predicate. -/
theorem selection_unkeyable_witness :
    push_down (.Selection (.IsUnique (lit (.i 5))) scanA) [] = .fatal .ambiguousKey :=
  (selection_unkeyable (.IsUnique (lit (.i 5))) scanA [] (by decide)).1 (by decide)

/-- Counterexample for C4: when the alias `x` matches the accumulated
predicate's key but aliases a literal with no root column (with a
further projection below), the optimizer aborts (the source's `unwrap`)
instead of recovering locally. -/
theorem c4_refuted : optimize c4Plan = .fatal .renameRoot := by decide

/-- Claim C4 (amended): at a Projection with a stacked projection below,
an alias whose name matches an accumulator key but whose target has no
single resolvable root column makes the optimizer abort the process (the
rename path `unwrap`s); it does not recover by leaving the predicate
local. -/
theorem projection_alias_rename_aborts (inner : Expr) (nm : String) (input : LogicalPlan)
    (s : Schema) (acc acc' : PredMap) (p : Expr)
    (hc : count_downtree_projections input ≠ 0)
    (hrm : removePred acc nm = (some p, acc'))
    (hroot : expr_to_root_column inner = none) :
    push_down (.Projection [.Alias inner nm] input s) acc = .fatal .renameRoot := by
  simp only [push_down]
  rw [if_neg hc]
  simp [renameAliases, hrm, hroot]

/-- Witness for the amended C4 at the concrete stacked-projection plan. -/
theorem projection_alias_rename_aborts_witness :
    push_down (.Projection [.Alias (lit (.i 3)) "x"] (.Projection [.Column "a"] scanA ["a"])
        ["x"]) [("x", c4AccPred)] = .fatal .renameRoot :=
  projection_alias_rename_aborts (lit (.i 3)) "x" (.Projection [.Column "a"] scanA ["a"])
    ["x"] [("x", c4AccPred)] [] c4AccPred (by decide) (by decide) (by decide)

/-- Counterexample for C5: the two stacked Selections keyed to `a`
collapse to one filter, but that filter carries
`AND(AND(lit(true), predA), predB)`, not `AND(predB, predA)`. -/
theorem c5_refuted :
    optimize c5Plan = .ok (.Selection (((lit (.b true)).and predA).and predB) scanA) ∧
    (decide ((((lit (.b true)).and predA).and predB) = predB.and predA)) = false :=
  ⟨by decide, by decide⟩

/-- Claim C5 (amended): `Selection(predA, Selection(predB, T))` with both
predicates keyed to the same column collapses to exactly one filter, but
the merge seeds an absent key with `lit(true)` rather than inserting the
first predicate as-is, and the outer predicate is merged first, so the
emitted filter carries `AND(AND(lit(true), predA), predB)`. -/
theorem selection_merge_same_key (pA pB : Expr) (n : String) (d : Nat) (s : Schema)
    (hA : expr_to_root_column pA = some n) (hB : expr_to_root_column pB = some n) :
    push_down (.Selection pA (.Selection pB (.DataFrameScan d s))) [] =
      .ok (.Selection (((lit (.b true)).and pA).and pB) (.DataFrameScan d s)) := by
  simp [push_down, hA, hB, insert_and_combine_predicate, finish_at_leaf,
    combine_predicates, combineStep, buildFilter]

/-- Witness for the amended C5 at the concrete merge example. -/
theorem selection_merge_same_key_witness :
    push_down c5Plan [] = .ok (.Selection (((lit (.b true)).and predA).and predB) scanA) :=
  selection_merge_same_key predA predB "a" 0 ["a"] (by decide) (by decide)

/-- Counterexample for C6: re-running the optimizer on its own output
changes the plan again: the second pass wraps the filter predicate in a
further `lit(true) AND`. -/
theorem c6_refuted :
    optimize c6Plan = .ok c6Once ∧ optimize c6Once = .ok c6Twice ∧
      (decide (c6Once = c6Twice)) = false :=
  ⟨by decide, by decide, by decide⟩

/-- Claim C6 (amended): the optimizer is not structurally idempotent:
every pass re-extracts each filter and re-emits its predicate wrapped in
an additional `lit(true) AND`, so on `Selection(p, scan)` the first pass
yields a filter carrying `AND(lit(true), p)` and a second pass over that
output yields a filter carrying `AND(lit(true), AND(lit(true), p))`. -/
theorem optimize_wraps_filter_predicate_each_pass (p : Expr) (n : String) (d : Nat)
    (s : Schema) (h : expr_to_root_column p = some n) :
    optimize (.Selection p (.DataFrameScan d s)) =
      .ok (.Selection ((lit (.b true)).and p) (.DataFrameScan d s)) ∧
    optimize (.Selection ((lit (.b true)).and p) (.DataFrameScan d s)) =
      .ok (.Selection ((lit (.b true)).and ((lit (.b true)).and p)) (.DataFrameScan d s)) := by
  have h2 : expr_to_root_column ((lit (.b true)).and p) = some n := by
    simpa [expr_to_root_column, rootColumns, Expr.and, lit] using h
  constructor
  · simp [optimize, push_down, h, insert_and_combine_predicate, finish_at_leaf,
      combine_predicates, combineStep, buildFilter]
  · simp [optimize, push_down, h2, insert_and_combine_predicate, finish_at_leaf,
      combine_predicates, combineStep, buildFilter]

/-- Witness for the amended C6 at the concrete one-filter plan. -/
theorem optimize_wraps_filter_predicate_each_pass_witness :
    optimize c6Plan = .ok c6Once ∧ optimize c6Once = .ok c6Twice :=
  optimize_wraps_filter_predicate_each_pass predA "a" 0 ["a"] (by decide)

end PolarsPushdown
